import Mathlib

/-!
Shallow embedding of `games.py` (classes `SSGameCurrentState`,
`CSGameCurrentState`, `SubtractSquareGame`, `ChopsticksGame`) together with
theorems checking the natural-language specification against it.

Python integers are modelled by `Int` (for the subtract-square value, which
the code may in principle drive below zero) and by `Nat` for the chopsticks
hand values, which are produced only by `% 5` on non-negative operands.
The four-element Python list `current_value` of the chopsticks state is
modelled by a record whose fields carry the names the source gives the four
positions (`p1_l`, `p1_r`, `p2_l`, `p2_r`).
-/

/-- The four chopsticks hand values, i.e. the Python list
`current_value = [p1_l, p1_r, p2_l, p2_r]`. -/
structure CSHands where
  p1_l : Nat
  p1_r : Nat
  p2_l : Nat
  p2_r : Nat
deriving DecidableEq, Repr

/-- `CSGameCurrentState`: turn flag, hand values and the two cached
possible-move lists. -/
structure CSGameCurrentState where
  is_p1_turn : Bool
  current_value : CSHands
  possible_moves_p1 : List String
  possible_moves_p2 : List String
deriving DecidableEq, Repr

/-- `GameCurrentState.get_current_player_name` from the source. -/
def CSGameCurrentState.get_current_player_name (s : CSGameCurrentState) : String :=
  if s.is_p1_turn then "p1" else "p2"

/-- `CSGameCurrentState.__init__`: both players start with one finger on
each hand and both caches hold the full move universe. -/
def CSGameCurrentState.init (is_p1_turn : Bool) : CSGameCurrentState :=
  { is_p1_turn := is_p1_turn
    current_value := ⟨1, 1, 1, 1⟩
    possible_moves_p1 := ["ll", "lr", "rl", "rr"]
    possible_moves_p2 := ["ll", "lr", "rl", "rr"] }

/-- `CSGameCurrentState.get_possible_moves`, translated branch for branch
from the nested `if` chains of the source. -/
def CSGameCurrentState.get_possible_moves (s : CSGameCurrentState) : List String :=
  let p1_l := s.current_value.p1_l
  let p1_r := s.current_value.p1_r
  let p2_l := s.current_value.p2_l
  let p2_r := s.current_value.p2_r
  if s.get_current_player_name = "p1" then
    if p1_l != 0 && p1_r != 0 then
      if p2_l != 0 && p2_r != 0 then ["ll", "lr", "rl", "rr"]
      else if p2_l == 0 && p2_r != 0 then ["lr", "rr"]
      else ["ll", "rl"]
    else if p1_l == 0 && p1_r != 0 then
      if p2_l != 0 && p2_r != 0 then ["rl", "rr"]
      else if p2_l == 0 && p2_r != 0 then ["rr"]
      else ["rl"]
    else if p1_l != 0 && p1_r == 0 then
      if p2_l != 0 && p2_r != 0 then ["ll", "lr"]
      else if p2_l == 0 && p2_r != 0 then ["lr"]
      else ["ll"]
    else []
  else
    if p2_l != 0 && p2_r != 0 then
      if p1_l != 0 && p1_r != 0 then ["ll", "lr", "rl", "rr"]
      else if p1_l == 0 && p1_r != 0 then ["lr", "rr"]
      else ["ll", "rl"]
    else if p2_l == 0 && p2_r != 0 then
      if p1_l != 0 && p1_r != 0 then ["rl", "rr"]
      else if p1_l == 0 && p1_r != 0 then ["rr"]
      else ["rl"]
    else if p2_l != 0 && p2_r == 0 then
      if p1_l != 0 && p1_r != 0 then ["ll", "lr"]
      else if p1_l == 0 && p1_r != 0 then ["lr"]
      else ["ll"]
    else []

/-- `CSGameCurrentState.is_valid_move`. -/
def CSGameCurrentState.is_valid_move (s : CSGameCurrentState) (move_to_make : String) : Bool :=
  s.get_possible_moves.contains move_to_make

/-- `CSGameCurrentState.make_move`: update the targeted hand modulo 5
(any unrecognised move string falls into the final `else`, i.e. `rr`),
flip the turn, then refresh the cache of the player now about to move. -/
def CSGameCurrentState.make_move (s : CSGameCurrentState) (move_to_make : String) :
    CSGameCurrentState :=
  let p1_l := s.current_value.p1_l
  let p1_r := s.current_value.p1_r
  let p2_l := s.current_value.p2_l
  let p2_r := s.current_value.p2_r
  let cv : CSHands :=
    if s.get_current_player_name = "p1" then
      if move_to_make = "ll" then ⟨p1_l, p1_r, (p1_l + p2_l) % 5, p2_r⟩
      else if move_to_make = "lr" then ⟨p1_l, p1_r, p2_l, (p1_l + p2_r) % 5⟩
      else if move_to_make = "rl" then ⟨p1_l, p1_r, (p1_r + p2_l) % 5, p2_r⟩
      else ⟨p1_l, p1_r, p2_l, (p1_r + p2_r) % 5⟩
    else
      if move_to_make = "ll" then ⟨(p2_l + p1_l) % 5, p1_r, p2_l, p2_r⟩
      else if move_to_make = "lr" then ⟨p1_l, (p2_l + p1_r) % 5, p2_l, p2_r⟩
      else if move_to_make = "rl" then ⟨(p2_r + p1_l) % 5, p1_r, p2_l, p2_r⟩
      else ⟨p1_l, (p2_r + p1_r) % 5, p2_l, p2_r⟩
  let flipped : CSGameCurrentState :=
    { s with current_value := cv, is_p1_turn := !s.is_p1_turn }
  if flipped.get_current_player_name = "p1" then
    { flipped with possible_moves_p1 := flipped.get_possible_moves }
  else
    { flipped with possible_moves_p2 := flipped.get_possible_moves }

/-- Hands of the active player (left hand). -/
def CSGameCurrentState.activeLeft (s : CSGameCurrentState) : Nat :=
  if s.is_p1_turn then s.current_value.p1_l else s.current_value.p2_l

/-- Hands of the active player (right hand). -/
def CSGameCurrentState.activeRight (s : CSGameCurrentState) : Nat :=
  if s.is_p1_turn then s.current_value.p1_r else s.current_value.p2_r

/-- Hands of the active player's opponent (left hand). -/
def CSGameCurrentState.opponentLeft (s : CSGameCurrentState) : Nat :=
  if s.is_p1_turn then s.current_value.p2_l else s.current_value.p1_l

/-- Hands of the active player's opponent (right hand). -/
def CSGameCurrentState.opponentRight (s : CSGameCurrentState) : Nat :=
  if s.is_p1_turn then s.current_value.p2_r else s.current_value.p1_r

/-- Source hand of a canonical move: the active player's left hand for
`ll`/`lr`, their right hand otherwise. -/
def CSGameCurrentState.sourceHand (s : CSGameCurrentState) (m : String) : Nat :=
  if m = "ll" ∨ m = "lr" then s.activeLeft else s.activeRight

/-- Target hand of a canonical move: the opponent's left hand for
`ll`/`rl`, their right hand otherwise. -/
def CSGameCurrentState.targetHand (s : CSGameCurrentState) (m : String) : Nat :=
  if m = "ll" ∨ m = "rl" then s.opponentLeft else s.opponentRight

/-- Read one of the four hand slots of the state, in the order of the
Python list `current_value`. -/
def CSGameCurrentState.hand (s : CSGameCurrentState) : Fin 4 → Nat
  | 0 => s.current_value.p1_l
  | 1 => s.current_value.p1_r
  | 2 => s.current_value.p2_l
  | 3 => s.current_value.p2_r

/-- Slot of `current_value` that a canonical move writes: one of the
opponent's two hands, the left one for `ll`/`rl`. -/
def CSGameCurrentState.targetIndex (s : CSGameCurrentState) (m : String) : Fin 4 :=
  if s.is_p1_turn then (if m = "ll" ∨ m = "rl" then 2 else 3)
  else (if m = "ll" ∨ m = "rl" then 0 else 1)

/-- The canonical move universe filtered as the spec words it: a move
survives exactly when its source hand and its target hand are both alive. -/
def CSGameCurrentState.specFilteredMoves (s : CSGameCurrentState) : List String :=
  ["ll", "lr", "rl", "rr"].filter fun m => (s.sourceHand m != 0) && (s.targetHand m != 0)

/-- Chopsticks states reachable from construction by legal moves. -/
inductive CSReachable : CSGameCurrentState → Prop
  | init (b : Bool) : CSReachable (CSGameCurrentState.init b)
  | step (s : CSGameCurrentState) (m : String) : CSReachable s →
      m ∈ s.get_possible_moves → CSReachable (s.make_move m)

/-- The `while i*i <= self.current_val` loop of
`SSGameCurrentState.get_possible_moves`, with loop counter `i`: it appends
`i*i` and increments `i` while the square fits below the current value. -/
def ssMovesLoop (current_val : Int) (i : Nat) : List Int :=
  if h : ((i * i : Nat) : Int) ≤ current_val then
    ((i * i : Nat) : Int) :: ssMovesLoop current_val (i + 1)
  else []
termination_by (current_val + 1 - i).toNat
decreasing_by
  have hii : (i : Int) ≤ ((i * i : Nat) : Int) := by
    cases i with
    | zero => simp
    | succ n =>
      have : (n + 1) * 1 ≤ (n + 1) * (n + 1) := Nat.mul_le_mul_left (n + 1) (by omega)
      exact_mod_cast by omega
  have : (i : Int) ≤ current_val := le_trans hii h
  omega

/-- `SSGameCurrentState`: turn flag, remaining value and the cached
possible-move list. -/
structure SSGameCurrentState where
  is_p1_turn : Bool
  current_val : Int
  possible_moves_list : List Int
deriving DecidableEq, Repr

/-- `SSGameCurrentState.get_possible_moves`: run the square-producing loop
from `i = 1` over the state's current value. -/
def SSGameCurrentState.get_possible_moves (s : SSGameCurrentState) : List Int :=
  ssMovesLoop s.current_val 1

/-- `SSGameCurrentState.__init__`: store the value and cache
`get_possible_moves` computed from it. -/
def SSGameCurrentState.init (is_p1_turn : Bool) (current_val : Int) : SSGameCurrentState :=
  { is_p1_turn := is_p1_turn
    current_val := current_val
    possible_moves_list := ssMovesLoop current_val 1 }

/-- `SSGameCurrentState.is_valid_move`. -/
def SSGameCurrentState.is_valid_move (s : SSGameCurrentState) (move_to_make : Int) : Bool :=
  s.possible_moves_list.contains move_to_make

/-- `SSGameCurrentState.make_move`: flip the turn, subtract the move from
the current value and refresh the cached possible-move list. -/
def SSGameCurrentState.make_move (s : SSGameCurrentState) (move_to_make : Int) :
    SSGameCurrentState :=
  let new_val := s.current_val - move_to_make
  { is_p1_turn := !s.is_p1_turn
    current_val := new_val
    possible_moves_list := ssMovesLoop new_val 1 }

/-- Legal-move sequences of the subtraction game: `SSPlays s ms t` holds
when playing the moves `ms` in order from `s`, each legal when played,
ends in `t`. -/
inductive SSPlays : SSGameCurrentState → List Int → SSGameCurrentState → Prop
  | nil (s : SSGameCurrentState) : SSPlays s [] s
  | cons (s : SSGameCurrentState) (m : Int) (ms : List Int) (t : SSGameCurrentState) :
      m ∈ s.get_possible_moves → SSPlays (s.make_move m) ms t → SSPlays s (m :: ms) t

/-- `SSGameCurrentState.__eq__`: Python compares the turn flag, the current
value and the cached move list field by field (after the `type(self) ==
type(other)` check, which the wrapper `AnyGameState.eqState` models). -/
def SSGameCurrentState.eqState (a b : SSGameCurrentState) : Bool :=
  a.is_p1_turn == b.is_p1_turn && a.current_val == b.current_val &&
    a.possible_moves_list == b.possible_moves_list

/-- `CSGameCurrentState.__eq__`: Python compares the turn flag and the hand
list structurally but compares the two cached move lists through `sorted`,
modelled here by `List.insertionSort`. -/
def CSGameCurrentState.eqState (a b : CSGameCurrentState) : Bool :=
  a.is_p1_turn == b.is_p1_turn && a.current_value == b.current_value &&
    (a.possible_moves_p1.insertionSort (· ≤ ·) == b.possible_moves_p1.insertionSort (· ≤ ·)) &&
    (a.possible_moves_p2.insertionSort (· ≤ ·) == b.possible_moves_p2.insertionSort (· ≤ ·))

/-- A game state of either concrete kind; `__eq__`'s `type(self) ==
type(other)` check makes states of different kinds compare unequal. -/
inductive AnyGameState
  | ss (s : SSGameCurrentState)
  | cs (s : CSGameCurrentState)
deriving DecidableEq, Repr

/-- Dispatching equality over the two concrete state kinds: Python's
`type(self) == type(other)` conjunct means cross-kind comparison is false. -/
def AnyGameState.eqState : AnyGameState → AnyGameState → Bool
  | .ss a, .ss b => a.eqState b
  | .cs a, .cs b => a.eqState b
  | _, _ => false

/-- `SubtractSquareGame`: turn flag plus the held state (the interactive
starting-value solicitation of `__init__` is out of scope; the wrapper is
modelled over an arbitrary held state). -/
structure SubtractSquareGame where
  is_p1_turn : Bool
  current_state : SSGameCurrentState
deriving DecidableEq, Repr

/-- `ChopsticksGame`: turn flag plus the held state. -/
structure ChopsticksGame where
  is_p1_turn : Bool
  current_state : CSGameCurrentState
deriving DecidableEq, Repr

/-- `SubtractSquareGame.is_winner`: the queried player wins exactly when
the cached move list of the held state is empty and the queried player is
not the player whose turn it is. -/
def SubtractSquareGame.is_winner (g : SubtractSquareGame) (current_player : String) : Bool :=
  let current_player_playing := if g.current_state.is_p1_turn then "p1" else "p2"
  if g.current_state.possible_moves_list == [] then
    if current_player != current_player_playing then true else false
  else false

/-- `ChopsticksGame.is_winner`: same shape, but the move list is
recomputed via `get_possible_moves` rather than read from a cache. -/
def ChopsticksGame.is_winner (g : ChopsticksGame) (current_player : String) : Bool :=
  let current_player_playing := if g.current_state.is_p1_turn then "p1" else "p2"
  if g.current_state.get_possible_moves == [] then
    if current_player != current_player_playing then true else false
  else false

/-- CPython's Unicode whitespace predicate (`Py_UNICODE_ISSPACE`), the set
stripped by the built-in `int()` before parsing: ASCII whitespace and
separators `U+0009`-`U+000D`, `U+001C`-`U+001F`, `U+0020`, plus `U+0085`,
`U+00A0`, `U+1680`, `U+2000`-`U+200A`, `U+2028`, `U+2029`, `U+202F`,
`U+205F` and `U+3000`. -/
def pyIsSpace (c : Char) : Bool :=
  (0x09 ≤ c.toNat && c.toNat ≤ 0x0D) || (0x1C ≤ c.toNat && c.toNat ≤ 0x1F) ||
    c.toNat == 0x20 || c.toNat == 0x85 || c.toNat == 0xA0 || c.toNat == 0x1680 ||
    (0x2000 ≤ c.toNat && c.toNat ≤ 0x200A) || c.toNat == 0x2028 || c.toNat == 0x2029 ||
    c.toNat == 0x202F || c.toNat == 0x205F || c.toNat == 0x3000

/-- The whitespace stripping `int()` performs on both ends of its string
argument, over the character list. -/
def pyStrip (ds : List Char) : List Char :=
  ((ds.dropWhile pyIsSpace).reverse.dropWhile pyIsSpace).reverse

/-- First code points of the Unicode `Nd` (decimal digit) blocks, each a
contiguous run of the ten digits 0-9 (Unicode 15.0, the table CPython's
`int()` accepts digits from). -/
def ndRangeStarts : List Nat :=
  [0x30, 0x660, 0x6F0, 0x7C0, 0x966, 0x9E6, 0xA66, 0xAE6, 0xB66, 0xBE6,
   0xC66, 0xCE6, 0xD66, 0xDE6, 0xE50, 0xED0, 0xF20, 0x1040, 0x1090, 0x17E0,
   0x1810, 0x1946, 0x19D0, 0x1A80, 0x1A90, 0x1B50, 0x1BB0, 0x1C40, 0x1C50,
   0xA620, 0xA8D0, 0xA900, 0xA9D0, 0xA9F0, 0xAA50, 0xABF0, 0xFF10,
   0x104A0, 0x10D30, 0x11066, 0x110F0, 0x11136, 0x111D0, 0x112F0, 0x11450,
   0x114D0, 0x11650, 0x116C0, 0x11730, 0x118E0, 0x11950, 0x11C50, 0x11D50,
   0x11DA0, 0x11F50, 0x16A60, 0x16AC0, 0x16B50, 0x1D7CE, 0x1D7D8, 0x1D7E2,
   0x1D7EC, 0x1D7F6, 0x1E140, 0x1E2F0, 0x1E4F0, 0x1E950, 0x1FBF0]

/-- Decimal value of a Unicode decimal digit (`Nd`), `none` for any other
character — `int()` accepts every such digit, not only ASCII `0`-`9`. -/
def pyDigitVal (c : Char) : Option Nat :=
  (ndRangeStarts.find? fun b => b ≤ c.toNat && c.toNat ≤ b + 9).map fun b => c.toNat - b

/-- Whether `int()` treats the character as a decimal digit. -/
def isPyDigit (c : Char) : Bool :=
  (pyDigitVal c).isSome

/-- Digit-run tail of `int()`'s base-10 grammar, after the first digit:
each group separator `_` must be immediately followed by a digit, every
other character must be a digit, and the accumulator builds the value left
to right. -/
def pyDigitsValAux : List Char → Nat → Option Nat
  | [], acc => some acc
  | c :: cs, acc =>
    if c = '_' then
      match cs with
      | [] => none
      | c2 :: cs2 =>
        match pyDigitVal c2 with
        | some d => pyDigitsValAux cs2 (10 * acc + d)
        | none => none
    else
      match pyDigitVal c with
      | some d => pyDigitsValAux cs (10 * acc + d)
      | none => none

/-- The digit-run part of `int()`'s base-10 grammar: a digit followed by
digits with single `_` group separators allowed only between digits
(`1_0` parses to 10; `_1`, `1_` and `1__0` fail). -/
def pyDigitsVal : List Char → Option Nat
  | [] => none
  | c :: cs =>
    match pyDigitVal c with
    | some d => pyDigitsValAux cs d
    | none => none

/-- The Python built-in `int(move)` on a string, as `str_to_move` calls it:
strip Unicode whitespace from both ends, then accept an optional sign
followed by a run of Unicode decimal digits with optional `_` group
separators between digits, and fail otherwise. -/
def pyInt (s : String) : Option Int :=
  match pyStrip s.data with
  | '+' :: rest => (pyDigitsVal rest).map Int.ofNat
  | '-' :: rest => (pyDigitsVal rest).map fun v => -Int.ofNat v
  | ds => (pyDigitsVal ds).map Int.ofNat

/-- `SubtractSquareGame.str_to_move` is `int(move)`; a failed parse is a
raised `ValueError`, modelled as `Except.error` so propagation to the
caller is visible in the type. -/
def SubtractSquareGame.str_to_move (g : SubtractSquareGame) (move : String) :
    Except String Int :=
  match pyInt move with
  | some n => Except.ok n
  | none => Except.error "invalid literal for int() with base 10"

/-- Spec-side value of a digit string read positionally: the head digit is
weighted by ten to the length of the tail. -/
def decimalValue : List Char → Nat
  | [] => 0
  | c :: cs => (pyDigitVal c).getD 0 * 10 ^ cs.length + decimalValue cs

/-- Spec-side grammar of the tail of a grouped digit run: only digits and
`_`, never two adjacent `_`, and it does not end in `_`. -/
def TailGrouped (ds : List Char) : Prop :=
  (∀ c ∈ ds, c = '_' ∨ isPyDigit c = true) ∧
    ds.getLast? ≠ some '_' ∧
    ds.Chain' fun a b => ¬(a = '_' ∧ b = '_')

/-- Spec-side grammar of a full grouped digit run: non-empty, it starts
with a digit, and its `_` separators stand strictly between digits. -/
def GroupedDigits (ds : List Char) : Prop :=
  ds ≠ [] ∧ ds.head? ≠ some '_' ∧ TailGrouped ds

/-- The plain reading of the claim's "base-10 integer": after stripping
whitespace, an optional sign followed by a non-empty run of ASCII decimal
digits whose positional value (negated under `'-'`) is `n`. Used to state
the counterexample: `int()` accepts strings outside this syntax. -/
def RepresentsInt (s : String) (n : Int) : Prop :=
  (∃ ds, (pyStrip s.data = ds ∨ pyStrip s.data = '+' :: ds) ∧ ds ≠ [] ∧
    (∀ c ∈ ds, c.isDigit = true) ∧ n = (decimalValue ds : Int)) ∨
  (∃ ds, pyStrip s.data = '-' :: ds ∧ ds ≠ [] ∧
    (∀ c ∈ ds, c.isDigit = true) ∧ n = -(decimalValue ds : Int))

/-- Spec-side notion of "the string is in `int()`'s base-10 syntax,
denoting `n`": after stripping Unicode whitespace the characters are an
optional sign followed by a grouped digit run whose positional value over
the digits (negated under `'-'`) is `n`. -/
def RepresentsPyInt (s : String) (n : Int) : Prop :=
  (∃ ds, (pyStrip s.data = ds ∨ pyStrip s.data = '+' :: ds) ∧ GroupedDigits ds ∧
    n = (decimalValue (ds.filter fun c => c != '_') : Int)) ∨
  (∃ ds, pyStrip s.data = '-' :: ds ∧ GroupedDigits ds ∧
    n = -(decimalValue (ds.filter fun c => c != '_') : Int))

/-! ### Helper lemmas -/

theorem ssMovesLoop_mem (v : Int) (m : Int) (i : Nat) :
    m ∈ ssMovesLoop v i ↔
      ∃ k : Nat, i ≤ k ∧ ((k * k : Nat) : Int) ≤ v ∧ m = ((k * k : Nat) : Int) := by
  induction i using ssMovesLoop.induct v with
  | case1 i h ih =>
    rw [ssMovesLoop, dif_pos h]
    simp only [List.mem_cons, ih]
    constructor
    · rintro (rfl | ⟨k, hk, hkv, rfl⟩)
      · exact ⟨i, le_refl i, h, rfl⟩
      · exact ⟨k, by omega, hkv, rfl⟩
    · rintro ⟨k, hk, hkv, rfl⟩
      rcases eq_or_lt_of_le hk with rfl | hlt
      · exact Or.inl rfl
      · exact Or.inr ⟨k, by omega, hkv, rfl⟩
  | case2 i h =>
    rw [ssMovesLoop, dif_neg h]
    simp only [List.not_mem_nil, false_iff]
    rintro ⟨k, hk, hkv, rfl⟩
    apply h
    calc ((i * i : Nat) : Int) ≤ ((k * k : Nat) : Int) := by
          exact_mod_cast Nat.mul_le_mul hk hk
      _ ≤ v := hkv

theorem ssMovesLoop_pairwise (v : Int) (i : Nat) :
    List.Pairwise (· < ·) (ssMovesLoop v i) := by
  induction i using ssMovesLoop.induct v with
  | case1 i h ih =>
    rw [ssMovesLoop, dif_pos h]
    refine List.Pairwise.cons ?_ ih
    intro m hm
    rw [ssMovesLoop_mem] at hm
    obtain ⟨k, hk, hkv, rfl⟩ := hm
    exact_mod_cast Nat.mul_self_lt_mul_self (by omega)
  | case2 i h =>
    rw [ssMovesLoop, dif_neg h]
    exact List.Pairwise.nil

theorem ssMovesLoop_nil_iff (v : Int) : ssMovesLoop v 1 = [] ↔ v ≤ 0 := by
  constructor
  · intro h
    by_contra hv
    have h1 : (1 : Int) ∈ ssMovesLoop v 1 := by
      rw [ssMovesLoop_mem]
      exact ⟨1, le_refl 1, by push_cast; omega, by norm_num⟩
    rw [h] at h1
    exact List.not_mem_nil _ h1
  · intro hv
    rw [ssMovesLoop, dif_neg]
    push_cast
    omega

theorem ssMovesLoop_one : ssMovesLoop 1 1 = [1] := by
  rw [ssMovesLoop, dif_pos (by norm_num), ssMovesLoop, dif_neg (by norm_num)]
  norm_num

theorem ss_make_move_val (s : SSGameCurrentState) (m : Int) (h : m ∈ s.get_possible_moves) :
    0 ≤ (s.make_move m).current_val ∧ (s.make_move m).current_val < s.current_val := by
  rw [SSGameCurrentState.get_possible_moves, ssMovesLoop_mem] at h
  obtain ⟨k, hk, hkv, rfl⟩ := h
  have hone : (1 : Nat) ≤ k * k := le_trans (by omega) (Nat.mul_le_mul hk hk)
  have hone' : (1 : Int) ≤ ((k * k : Nat) : Int) := by exact_mod_cast hone
  simp only [SSGameCurrentState.make_move]
  omega

theorem ssPlays_length_le (s : SSGameCurrentState) (ms : List Int) (t : SSGameCurrentState)
    (hp : SSPlays s ms t) (h0 : 0 ≤ s.current_val) : ms.length ≤ s.current_val.toNat := by
  induction hp with
  | nil s => simp
  | cons s m ms t hm hp ih =>
    have hstep := ss_make_move_val s m hm
    have hrec := ih hstep.1
    simp only [List.length_cons]
    omega

theorem ssPlays_terminal (s : SSGameCurrentState) (ms : List Int) (t : SSGameCurrentState)
    (hp : SSPlays s ms t) (h0 : 0 ≤ s.current_val) (hend : t.get_possible_moves = []) :
    t.current_val = 0 := by
  induction hp with
  | nil s =>
    rw [SSGameCurrentState.get_possible_moves, ssMovesLoop_nil_iff] at hend
    omega
  | cons s m ms t hm hp ih =>
    exact ih (ss_make_move_val s m hm).1 hend

theorem cs_moves_mem_canonical (s : CSGameCurrentState) (m : String)
    (h : m ∈ s.get_possible_moves) : m = "ll" ∨ m = "lr" ∨ m = "rl" ∨ m = "rr" := by
  obtain ⟨b, ⟨w, x, y, z⟩, pm1, pm2⟩ := s
  cases b <;>
    rcases w with _ | w <;> rcases x with _ | x <;> rcases y with _ | y <;> rcases z with _ | z <;>
    simp_all [CSGameCurrentState.get_possible_moves,
      CSGameCurrentState.get_current_player_name] <;> tauto

theorem cs_make_move_hands_le (s : CSGameCurrentState) (m : String)
    (h : s.current_value.p1_l ≤ 4 ∧ s.current_value.p1_r ≤ 4 ∧
      s.current_value.p2_l ≤ 4 ∧ s.current_value.p2_r ≤ 4) :
    (s.make_move m).current_value.p1_l ≤ 4 ∧ (s.make_move m).current_value.p1_r ≤ 4 ∧
      (s.make_move m).current_value.p2_l ≤ 4 ∧ (s.make_move m).current_value.p2_r ≤ 4 := by
  have h5 : ∀ a b : Nat, (a + b) % 5 ≤ 4 := fun a b => by omega
  obtain ⟨b, ⟨w, x, y, z⟩, pm1, pm2⟩ := s
  cases b <;> by_cases hll : m = "ll" <;> by_cases hlr : m = "lr" <;> by_cases hrl : m = "rl" <;>
    simp_all [CSGameCurrentState.make_move, CSGameCurrentState.get_current_player_name]

theorem csReachable_hands_le (s : CSGameCurrentState) (h : CSReachable s) :
    s.current_value.p1_l ≤ 4 ∧ s.current_value.p1_r ≤ 4 ∧
      s.current_value.p2_l ≤ 4 ∧ s.current_value.p2_r ≤ 4 := by
  induction h with
  | init b => refine ⟨?_, ?_, ?_, ?_⟩ <;> simp [CSGameCurrentState.init]
  | step t m ht hm ih => exact cs_make_move_hands_le t m ih

theorem cs_sourceHand_le (s : CSGameCurrentState) (m : String)
    (h : s.current_value.p1_l ≤ 4 ∧ s.current_value.p1_r ≤ 4 ∧
      s.current_value.p2_l ≤ 4 ∧ s.current_value.p2_r ≤ 4) :
    s.sourceHand m ≤ 4 ∧ s.targetHand m ≤ 4 := by
  obtain ⟨b, ⟨w, x, y, z⟩, pm1, pm2⟩ := s
  obtain ⟨h1, h2, h3, h4⟩ := h
  cases b <;> refine ⟨?_, ?_⟩ <;>
    simp only [CSGameCurrentState.sourceHand, CSGameCurrentState.targetHand,
      CSGameCurrentState.activeLeft, CSGameCurrentState.activeRight,
      CSGameCurrentState.opponentLeft, CSGameCurrentState.opponentRight] <;>
    split <;> simp_all

theorem insertionSort_eq_iff_perm (l1 l2 : List String) :
    l1.insertionSort (· ≤ ·) = l2.insertionSort (· ≤ ·) ↔ l1.Perm l2 := by
  constructor
  · intro h
    exact (List.perm_insertionSort (· ≤ ·) l1).symm.trans
      (h ▸ List.perm_insertionSort (· ≤ ·) l2)
  · intro h
    exact List.eq_of_perm_of_sorted
      ((List.perm_insertionSort _ l1).trans (h.trans (List.perm_insertionSort _ l2).symm))
      (List.sorted_insertionSort _ l1) (List.sorted_insertionSort _ l2)

theorem ss_eqState_iff (a b : SSGameCurrentState) : a.eqState b = true ↔ a = b := by
  cases a; cases b
  simp [SSGameCurrentState.eqState, SSGameCurrentState.mk.injEq, Bool.and_eq_true, beq_iff_eq]
  tauto

theorem cs_eqState_iff (a b : CSGameCurrentState) : a.eqState b = true ↔
    (a.is_p1_turn = b.is_p1_turn ∧ a.current_value = b.current_value ∧
      a.possible_moves_p1.Perm b.possible_moves_p1 ∧
      a.possible_moves_p2.Perm b.possible_moves_p2) := by
  simp only [CSGameCurrentState.eqState, Bool.and_eq_true, beq_iff_eq]
  constructor
  · rintro ⟨⟨⟨h1, h2⟩, h3⟩, h4⟩
    exact ⟨h1, h2, (insertionSort_eq_iff_perm _ _).mp h3, (insertionSort_eq_iff_perm _ _).mp h4⟩
  · rintro ⟨h1, h2, h3, h4⟩
    exact ⟨⟨⟨h1, h2⟩, (insertionSort_eq_iff_perm _ _).mpr h3⟩,
      (insertionSort_eq_iff_perm _ _).mpr h4⟩

theorem isPyDigit_ne_us (c : Char) (h : isPyDigit c = true) : c ≠ '_' := by
  intro heq
  subst heq
  exact absurd h (by decide)

theorem tailGrouped_nil : TailGrouped [] := by
  refine ⟨by simp, by simp, List.chain'_nil⟩

theorem tailGrouped_cons_digit (c : Char) (cs : List Char) (hc : isPyDigit c = true) :
    TailGrouped (c :: cs) ↔ TailGrouped cs := by
  have hcu : c ≠ '_' := isPyDigit_ne_us c hc
  unfold TailGrouped
  constructor
  · rintro ⟨hall, hlast, hch⟩
    refine ⟨fun x hx => hall x (List.mem_cons_of_mem _ hx), ?_, (List.chain'_cons'.mp hch).2⟩
    cases cs with
    | nil => simp
    | cons d ds => rw [List.getLast?_cons_cons] at hlast; exact hlast
  · rintro ⟨hall, hlast, hch⟩
    refine ⟨?_, ?_, ?_⟩
    · intro x hx
      rcases List.mem_cons.mp hx with rfl | hx
      · exact Or.inr hc
      · exact hall x hx
    · cases cs with
      | nil => simpa using hcu
      | cons d ds => rw [List.getLast?_cons_cons]; exact hlast
    · exact List.chain'_cons'.mpr ⟨fun y hy => fun hcon => hcu hcon.1, hch⟩

theorem tailGrouped_us_cons (c2 : Char) (cs2 : List Char) :
    TailGrouped ('_' :: c2 :: cs2) ↔ isPyDigit c2 = true ∧ TailGrouped cs2 := by
  constructor
  · rintro ⟨hall, hlast, hch⟩
    have hc2 : c2 = '_' ∨ isPyDigit c2 = true := hall c2 (by simp)
    have hR := (List.chain'_cons.mp hch).1
    have hc2' : c2 ≠ '_' := fun h => hR ⟨rfl, h⟩
    have hd : isPyDigit c2 = true := hc2.resolve_left hc2'
    refine ⟨hd, ?_⟩
    have h2 : TailGrouped (c2 :: cs2) := ⟨fun x hx => hall x (List.mem_cons_of_mem _ hx),
      by rw [List.getLast?_cons_cons] at hlast; exact hlast, (List.chain'_cons.mp hch).2⟩
    exact (tailGrouped_cons_digit c2 cs2 hd).mp h2
  · rintro ⟨hd, ht⟩
    have hc2' : c2 ≠ '_' := isPyDigit_ne_us c2 hd
    obtain ⟨hall, hlast, hch⟩ := (tailGrouped_cons_digit c2 cs2 hd).mpr ht
    refine ⟨?_, ?_, ?_⟩
    · intro x hx
      rcases List.mem_cons.mp hx with rfl | hx
      · exact Or.inl rfl
      · exact hall x hx
    · rw [List.getLast?_cons_cons]; exact hlast
    · exact List.chain'_cons.mpr ⟨fun h => hc2' h.2, hch⟩

theorem tailGrouped_us_single : ¬ TailGrouped ['_'] := by
  rintro ⟨-, hlast, -⟩
  exact hlast (by simp)

theorem pyDigitsValAux_spec (ds : List Char) (acc : Nat) : ∀ v : Nat,
    pyDigitsValAux ds acc = some v ↔
      TailGrouped ds ∧
        v = acc * 10 ^ (ds.filter fun c => c != '_').length +
          decimalValue (ds.filter fun c => c != '_') := by
  induction ds, acc using pyDigitsValAux.induct with
  | case1 acc =>
    intro v
    simp [pyDigitsValAux, tailGrouped_nil, decimalValue, eq_comm]
  | case2 acc =>
    intro v
    simp only [pyDigitsValAux]
    simp [tailGrouped_us_single]
  | case3 acc c2 cs2 d hd ih =>
    intro v
    have hc2 : c2 ≠ '_' := isPyDigit_ne_us c2 (by simp [isPyDigit, hd])
    have hb2 : (c2 != '_') = true := by simp [hc2]
    have hfil : (('_' :: c2 :: cs2).filter fun c => c != '_') =
        c2 :: (cs2.filter fun c => c != '_') := by
      simp [List.filter, hb2]
    rw [show pyDigitsValAux ('_' :: c2 :: cs2) acc = pyDigitsValAux cs2 (10 * acc + d) by
      simp [pyDigitsValAux, hd]]
    rw [tailGrouped_us_cons]
    constructor
    · intro hv
      obtain ⟨ht, rfl⟩ := (ih _).mp hv
      refine ⟨⟨by simp [isPyDigit, hd], ht⟩, ?_⟩
      rw [hfil]
      simp only [decimalValue, List.length_cons, hd, Option.getD_some, pow_succ]
      ring
    · rintro ⟨⟨-, ht⟩, rfl⟩
      refine (ih _).mpr ⟨ht, ?_⟩
      rw [hfil]
      simp only [decimalValue, List.length_cons, hd, Option.getD_some, pow_succ]
      ring
  | case4 acc c2 cs2 hd =>
    intro v
    rw [show pyDigitsValAux ('_' :: c2 :: cs2) acc = none by simp [pyDigitsValAux, hd]]
    simp only [false_iff, reduceCtorEq]
    rintro ⟨ht, -⟩
    obtain ⟨hdig, -⟩ := (tailGrouped_us_cons c2 cs2).mp ht
    rw [isPyDigit, hd] at hdig
    cases hdig
  | case5 c cs acc hcu d hd ih =>
    intro v
    have hb2 : (c != '_') = true := by simp [hcu]
    have hfil : ((c :: cs).filter fun x => x != '_') = c :: (cs.filter fun x => x != '_') := by
      simp [List.filter, hb2]
    rw [show pyDigitsValAux (c :: cs) acc = pyDigitsValAux cs (10 * acc + d) by
      rw [pyDigitsValAux.eq_def]; simp [hcu, hd]]
    rw [tailGrouped_cons_digit c cs (by simp [isPyDigit, hd])]
    constructor
    · intro hv
      obtain ⟨ht, rfl⟩ := (ih _).mp hv
      refine ⟨ht, ?_⟩
      rw [hfil]
      simp only [decimalValue, List.length_cons, hd, Option.getD_some, pow_succ]
      ring
    · rintro ⟨ht, rfl⟩
      refine (ih _).mpr ⟨ht, ?_⟩
      rw [hfil]
      simp only [decimalValue, List.length_cons, hd, Option.getD_some, pow_succ]
      ring
  | case6 c cs acc hcu hd =>
    intro v
    rw [show pyDigitsValAux (c :: cs) acc = none by
      rw [pyDigitsValAux.eq_def]; simp [hcu, hd]]
    simp only [false_iff, reduceCtorEq]
    rintro ⟨⟨hall, -, -⟩, -⟩
    rcases hall c (by simp) with h | h
    · exact hcu h
    · rw [isPyDigit, hd] at h; cases h

theorem groupedDigits_cons (c : Char) (cs : List Char) :
    GroupedDigits (c :: cs) ↔ isPyDigit c = true ∧ TailGrouped cs := by
  unfold GroupedDigits
  by_cases hc : c = '_'
  · subst hc
    constructor
    · rintro ⟨-, hh, -⟩
      exact absurd rfl hh
    · rintro ⟨hd, -⟩
      exact absurd hd (by decide)
  · constructor
    · rintro ⟨-, hh, ht⟩
      have hdig := (ht.1 c (by simp)).resolve_left hc
      exact ⟨hdig, (tailGrouped_cons_digit c cs hdig).mp ht⟩
    · rintro ⟨hd, ht⟩
      exact ⟨by simp, by simp [hc], (tailGrouped_cons_digit c cs hd).mpr ht⟩

theorem pyDigitsVal_some_iff (ds : List Char) (v : Nat) :
    pyDigitsVal ds = some v ↔
      GroupedDigits ds ∧ v = decimalValue (ds.filter fun c => c != '_') := by
  cases ds with
  | nil => simp [pyDigitsVal, GroupedDigits]
  | cons c cs =>
    cases hd : pyDigitVal c with
    | some d =>
      have hdig : isPyDigit c = true := by simp [isPyDigit, hd]
      have hcu : c ≠ '_' := isPyDigit_ne_us c hdig
      have hb2 : (c != '_') = true := by simp [hcu]
      have hfil : ((c :: cs).filter fun x => x != '_') = c :: (cs.filter fun x => x != '_') := by
        simp [List.filter, hb2]
      rw [show pyDigitsVal (c :: cs) = pyDigitsValAux cs d by
        rw [pyDigitsVal.eq_def]; simp [hd]]
      rw [pyDigitsValAux_spec cs d v, groupedDigits_cons, hfil]
      simp only [decimalValue, hd, Option.getD_some]
      constructor
      · rintro ⟨ht, hv⟩
        exact ⟨⟨hdig, ht⟩, hv⟩
      · rintro ⟨⟨-, ht⟩, hv⟩
        exact ⟨ht, hv⟩
    | none =>
      rw [show pyDigitsVal (c :: cs) = none by rw [pyDigitsVal.eq_def]; simp [hd]]
      simp only [reduceCtorEq, false_iff]
      rintro ⟨hg, -⟩
      obtain ⟨hdig, -⟩ := (groupedDigits_cons c cs).mp hg
      rw [isPyDigit, hd] at hdig
      cases hdig

theorem pyInt_some_iff (s : String) (n : Int) : pyInt s = some n ↔ RepresentsPyInt s n := by
  unfold pyInt RepresentsPyInt
  split
  · rename_i rest heq
    rw [heq]
    constructor
    · intro hv
      rcases hdv : pyDigitsVal rest with _ | v
      · rw [hdv] at hv; simp at hv
      · rw [hdv] at hv
        simp only [Option.map_some', Option.some.injEq, Int.ofNat_eq_natCast] at hv
        obtain ⟨hg, rfl⟩ := (pyDigitsVal_some_iff _ _).mp hdv
        exact Or.inl ⟨rest, Or.inr rfl, hg, hv.symm⟩
    · rintro (⟨ds, hds, hg, hn⟩ | ⟨ds, hds, hg, hn⟩)
      · rcases hds with hds | hds
        · exfalso
          obtain ⟨-, -, hall, -, -⟩ := hg
          have hmem : '+' ∈ ds := hds ▸ List.mem_cons_self _ _
          rcases hall _ hmem with h | h
          · exact absurd h (by decide)
          · exact absurd h (by decide)
        · obtain rfl : rest = ds := by injection hds
          rw [(pyDigitsVal_some_iff rest _).mpr ⟨hg, rfl⟩]
          simp [hn]
      · exfalso
        injection hds with h1 h2
        exact absurd h1 (by decide)
  · rename_i rest heq
    rw [heq]
    constructor
    · intro hv
      rcases hdv : pyDigitsVal rest with _ | v
      · rw [hdv] at hv; simp at hv
      · rw [hdv] at hv
        simp only [Option.map_some', Option.some.injEq, Int.ofNat_eq_natCast] at hv
        obtain ⟨hg, rfl⟩ := (pyDigitsVal_some_iff _ _).mp hdv
        exact Or.inr ⟨rest, rfl, hg, hv.symm⟩
    · rintro (⟨ds, hds, hg, hn⟩ | ⟨ds, hds, hg, hn⟩)
      · rcases hds with hds | hds
        · exfalso
          obtain ⟨-, -, hall, -, -⟩ := hg
          have hmem : '-' ∈ ds := hds ▸ List.mem_cons_self _ _
          rcases hall _ hmem with h | h
          · exact absurd h (by decide)
          · exact absurd h (by decide)
        · exfalso
          injection hds with h1 h2
          exact absurd h1 (by decide)
      · obtain rfl : rest = ds := by injection hds
        rw [(pyDigitsVal_some_iff rest _).mpr ⟨hg, rfl⟩]
        simp [hn]
  · rename_i hnotplus hnotminus
    constructor
    · intro hv
      rcases hdv : pyDigitsVal (pyStrip s.data) with _ | v
      · rw [hdv] at hv; simp at hv
      · rw [hdv] at hv
        simp only [Option.map_some', Option.some.injEq, Int.ofNat_eq_natCast] at hv
        obtain ⟨hg, rfl⟩ := (pyDigitsVal_some_iff _ _).mp hdv
        exact Or.inl ⟨pyStrip s.data, Or.inl rfl, hg, hv.symm⟩
    · rintro (⟨ds, hds, hg, hn⟩ | ⟨ds, hds, hg, hn⟩)
      · rcases hds with hds | hds
        · rw [hds, (pyDigitsVal_some_iff ds _).mpr ⟨hg, rfl⟩]
          simp [hn]
        · exact absurd hds (hnotplus ds)
      · exact absurd hds (hnotminus ds)

/-! ### Claim theorems -/

/-- C1 (amended): for every chopsticks state with hand values in `[0,4]`
whose active player's opponent has at least one alive hand,
`get_possible_moves` is exactly the canonical universe `ll, lr, rl, rr`
filtered to moves whose source hand and target hand are both alive, and
the list is empty exactly when both of the active player's hands are dead.
(The original claim, quantified over all states, fails when both opponent
hands are dead: see the counterexample.) -/
theorem c1_get_possible_moves_filtered (s : CSGameCurrentState)
    (hb : s.current_value.p1_l ≤ 4 ∧ s.current_value.p1_r ≤ 4 ∧
      s.current_value.p2_l ≤ 4 ∧ s.current_value.p2_r ≤ 4)
    (hopp : s.opponentLeft ≠ 0 ∨ s.opponentRight ≠ 0) :
    s.get_possible_moves = s.specFilteredMoves ∧
      (s.get_possible_moves = [] ↔ s.activeLeft = 0 ∧ s.activeRight = 0) := by
  clear hb
  obtain ⟨b, ⟨w, x, y, z⟩, pm1, pm2⟩ := s
  cases b <;>
    rcases w with _ | w <;> rcases x with _ | x <;> rcases y with _ | y <;> rcases z with _ | z <;>
    simp_all [CSGameCurrentState.get_possible_moves, CSGameCurrentState.specFilteredMoves,
      CSGameCurrentState.sourceHand, CSGameCurrentState.targetHand,
      CSGameCurrentState.activeLeft, CSGameCurrentState.activeRight,
      CSGameCurrentState.opponentLeft, CSGameCurrentState.opponentRight,
      CSGameCurrentState.get_current_player_name]

/-- C1 counterexample: with the active player's hands alive but both
opponent hands dead (hands `(1,1,0,0)`, p1 to move), the code returns
`["ll", "rl"]` although the both-hands-alive filter of the claim leaves
nothing, so the claimed equality and the claimed emptiness condition both
fail at this state. -/
theorem c1_counterexample_dead_opponent :
    (⟨true, ⟨1, 1, 0, 0⟩, ["ll", "lr", "rl", "rr"], ["ll", "lr", "rl", "rr"]⟩ :
        CSGameCurrentState).get_possible_moves = ["ll", "rl"] ∧
      (⟨true, ⟨1, 1, 0, 0⟩, ["ll", "lr", "rl", "rr"], ["ll", "lr", "rl", "rr"]⟩ :
        CSGameCurrentState).specFilteredMoves = [] :=
  ⟨by decide, by decide⟩

/-- C1 witness: the amended theorem applied at the concrete state with
hands `(1,1,0,1)` and p1 to move. -/
theorem c1_witness :
    (⟨true, ⟨1, 1, 0, 1⟩, ["ll", "lr", "rl", "rr"], ["ll", "lr", "rl", "rr"]⟩ :
        CSGameCurrentState).get_possible_moves =
      (⟨true, ⟨1, 1, 0, 1⟩, ["ll", "lr", "rl", "rr"], ["ll", "lr", "rl", "rr"]⟩ :
        CSGameCurrentState).specFilteredMoves ∧
    ((⟨true, ⟨1, 1, 0, 1⟩, ["ll", "lr", "rl", "rr"], ["ll", "lr", "rl", "rr"]⟩ :
        CSGameCurrentState).get_possible_moves = [] ↔
      (⟨true, ⟨1, 1, 0, 1⟩, ["ll", "lr", "rl", "rr"], ["ll", "lr", "rl", "rr"]⟩ :
        CSGameCurrentState).activeLeft = 0 ∧
      (⟨true, ⟨1, 1, 0, 1⟩, ["ll", "lr", "rl", "rr"], ["ll", "lr", "rl", "rr"]⟩ :
        CSGameCurrentState).activeRight = 0) :=
  c1_get_possible_moves_filtered _ (by decide) (by decide)

/-- C2 (amended): in every reachable chopsticks state, the pre-reduction
sum of a legal move's source and target hand is at most 8 (not 5), and
modulo-5 reduction agrees with "if the sum is at least 5, subtract 5";
sums of exactly 5 do occur. (The original bound 5 fails: see the
counterexample with sum 6.) -/
theorem c2_sum_bound_amended :
    (∀ (s : CSGameCurrentState) (m : String), CSReachable s → m ∈ s.get_possible_moves →
      s.sourceHand m + s.targetHand m ≤ 8 ∧
        (s.sourceHand m + s.targetHand m) % 5 =
          (if 5 ≤ s.sourceHand m + s.targetHand m then s.sourceHand m + s.targetHand m - 5
            else s.sourceHand m + s.targetHand m)) ∧
    (∃ (s : CSGameCurrentState) (m : String), CSReachable s ∧ m ∈ s.get_possible_moves ∧
      s.sourceHand m + s.targetHand m = 5) := by
  constructor
  · intro s m h hm
    have hb := csReachable_hands_le s h
    have hs := cs_sourceHand_le s m hb
    refine ⟨by omega, ?_⟩
    split <;> omega
  · refine ⟨((CSGameCurrentState.init true).make_move "ll").make_move "ll", "ll",
      CSReachable.step _ _ (CSReachable.step _ _ (CSReachable.init true) (by decide))
        (by decide), by decide, by decide⟩

/-- C2 counterexample: a four-move legal line from the initial state
reaches hands `(3,1,3,1)` with p2 to move, where the legal move `ll`
combines source hand 3 with target hand 3, a pre-reduction sum of 6 — so
"nothing above 5 ever occurs" is false. -/
theorem c2_counterexample_sum_six :
    CSReachable ((((CSGameCurrentState.init true).make_move "ll").make_move "ll").make_move
      "rl") ∧
    "ll" ∈ ((((CSGameCurrentState.init true).make_move "ll").make_move "ll").make_move
      "rl").get_possible_moves ∧
    ((((CSGameCurrentState.init true).make_move "ll").make_move "ll").make_move
        "rl").sourceHand "ll" +
      ((((CSGameCurrentState.init true).make_move "ll").make_move "ll").make_move
        "rl").targetHand "ll" = 6 := by
  refine ⟨?_, by decide, by decide⟩
  exact CSReachable.step _ _ (CSReachable.step _ _ (CSReachable.step _ _
    (CSReachable.init true) (by decide)) (by decide)) (by decide)

/-- C2 witness: the universal part of the amended theorem applied to the
initial state and the legal move `ll`. -/
theorem c2_witness :
    (CSGameCurrentState.init true).sourceHand "ll" +
        (CSGameCurrentState.init true).targetHand "ll" ≤ 8 ∧
      ((CSGameCurrentState.init true).sourceHand "ll" +
          (CSGameCurrentState.init true).targetHand "ll") % 5 =
        (if 5 ≤ (CSGameCurrentState.init true).sourceHand "ll" +
            (CSGameCurrentState.init true).targetHand "ll" then
          (CSGameCurrentState.init true).sourceHand "ll" +
            (CSGameCurrentState.init true).targetHand "ll" - 5
        else (CSGameCurrentState.init true).sourceHand "ll" +
            (CSGameCurrentState.init true).targetHand "ll") :=
  c2_sum_bound_amended.1 (CSGameCurrentState.init true) "ll" (CSReachable.init true) (by decide)

/-- C3 (amended): state equality requires the same concrete kind and the
same active player; subtraction states additionally compare the value and
the cached move list structurally (order-sensitive), but chopsticks states
compare the cached move lists through `sorted`, i.e. only up to
reordering, so two chopsticks states whose caches hold the same moves in a
different order ARE equal. (The original "different order is never equal"
fails for chopsticks: see the counterexample.) -/
theorem c3_equality_characterization (x y : AnyGameState) : x.eqState y = true ↔
    ((∃ a b, x = .ss a ∧ y = .ss b ∧ a = b) ∨
     (∃ a b, x = .cs a ∧ y = .cs b ∧ a.is_p1_turn = b.is_p1_turn ∧
       a.current_value = b.current_value ∧
       a.possible_moves_p1.Perm b.possible_moves_p1 ∧
       a.possible_moves_p2.Perm b.possible_moves_p2)) := by
  cases x <;> cases y <;>
    simp [AnyGameState.eqState, ss_eqState_iff, cs_eqState_iff]

/-- C3 counterexample: two chopsticks states that differ only in the order
of the cached `possible_moves_p1` list compare equal under the code's
`__eq__`, contradicting the claim that differently ordered caches are
never equal. -/
theorem c3_counterexample_order_insensitive :
    AnyGameState.eqState (.cs (CSGameCurrentState.init true))
      (.cs { CSGameCurrentState.init true with
        possible_moves_p1 := ["rr", "rl", "lr", "ll"] }) = true ∧
    (CSGameCurrentState.init true).possible_moves_p1 ≠ ["rr", "rl", "lr", "ll"] := by
  refine ⟨?_, by decide⟩
  exact (cs_eqState_iff _ _).mpr ⟨rfl, rfl, by decide, by decide⟩

/-- C4: for every legal chopsticks move, `make_move` flips the active
player, overwrites the targeted opponent hand with the modulo-5 reduced
sum of the source and target hands, and leaves the other three hands
unchanged. -/
theorem c4_make_move_frame (s : CSGameCurrentState) (m : String)
    (h : m ∈ s.get_possible_moves) :
    (s.make_move m).is_p1_turn = !s.is_p1_turn ∧
      (s.make_move m).hand (s.targetIndex m) = (s.sourceHand m + s.targetHand m) % 5 ∧
      ∀ i : Fin 4, i ≠ s.targetIndex m → (s.make_move m).hand i = s.hand i := by
  obtain h4 := cs_moves_mem_canonical s m h
  obtain ⟨b, ⟨w, x, y, z⟩, pm1, pm2⟩ := s
  rcases h4 with rfl | rfl | rfl | rfl <;> cases b <;>
    refine ⟨by simp [CSGameCurrentState.make_move, CSGameCurrentState.get_current_player_name],
      by simp [CSGameCurrentState.make_move, CSGameCurrentState.get_current_player_name,
        CSGameCurrentState.hand, CSGameCurrentState.targetIndex, CSGameCurrentState.sourceHand,
        CSGameCurrentState.targetHand, CSGameCurrentState.activeLeft,
        CSGameCurrentState.activeRight, CSGameCurrentState.opponentLeft,
        CSGameCurrentState.opponentRight], ?_⟩ <;>
    (intro i hi
     fin_cases i <;>
      simp_all [CSGameCurrentState.make_move, CSGameCurrentState.get_current_player_name,
        CSGameCurrentState.hand, CSGameCurrentState.targetIndex])

/-- C4 witness: the frame property applied to the initial state and the
legal move `ll`. -/
theorem c4_witness :
    ((CSGameCurrentState.init true).make_move "ll").is_p1_turn =
        !(CSGameCurrentState.init true).is_p1_turn ∧
      ((CSGameCurrentState.init true).make_move "ll").hand
          ((CSGameCurrentState.init true).targetIndex "ll") =
        ((CSGameCurrentState.init true).sourceHand "ll" +
          (CSGameCurrentState.init true).targetHand "ll") % 5 ∧
      ∀ i : Fin 4, i ≠ (CSGameCurrentState.init true).targetIndex "ll" →
        ((CSGameCurrentState.init true).make_move "ll").hand i =
          (CSGameCurrentState.init true).hand i :=
  c4_make_move_frame (CSGameCurrentState.init true) "ll" (by decide)

/-- C5: in every chopsticks state reachable from construction by legal
moves, each of the four hand values lies in `[0,4]` (hands are naturals,
so the lower bound is inherent; the modulo-5 update keeps the upper
bound). -/
theorem c5_reachable_hands_in_range (s : CSGameCurrentState) (h : CSReachable s) :
    s.current_value.p1_l ≤ 4 ∧ s.current_value.p1_r ≤ 4 ∧
      s.current_value.p2_l ≤ 4 ∧ s.current_value.p2_r ≤ 4 :=
  csReachable_hands_le s h

/-- C5 witness: the invariant at the freshly constructed state. -/
theorem c5_witness :
    (CSGameCurrentState.init true).current_value.p1_l ≤ 4 ∧
      (CSGameCurrentState.init true).current_value.p1_r ≤ 4 ∧
      (CSGameCurrentState.init true).current_value.p2_l ≤ 4 ∧
      (CSGameCurrentState.init true).current_value.p2_r ≤ 4 :=
  c5_reachable_hands_in_range (CSGameCurrentState.init true) (CSReachable.init true)

/-- C6: for every subtraction state with non-negative value,
`get_possible_moves` is exactly the list of squares `k*k` (`k ≥ 1`) not
exceeding the value, strictly ascending and duplicate-free; the cached
list built at construction coincides with the recomputation (the function
itself is pure, so recomputing twice is identical by definition). -/
theorem c6_possible_moves_squares (s : SSGameCurrentState) (h : 0 ≤ s.current_val) :
    (∀ m : Int, m ∈ s.get_possible_moves ↔
      ∃ k : Nat, 1 ≤ k ∧ m = ((k * k : Nat) : Int) ∧ m ≤ s.current_val) ∧
    List.Pairwise (· < ·) s.get_possible_moves ∧
    s.get_possible_moves.Nodup ∧
    (SSGameCurrentState.init s.is_p1_turn s.current_val).possible_moves_list =
      s.get_possible_moves := by
  refine ⟨?_, ssMovesLoop_pairwise _ _, ?_, rfl⟩
  · intro m
    rw [SSGameCurrentState.get_possible_moves, ssMovesLoop_mem]
    constructor
    · rintro ⟨k, hk, hkv, rfl⟩
      exact ⟨k, hk, rfl, hkv⟩
    · rintro ⟨k, hk, rfl, hkv⟩
      exact ⟨k, hk, hkv, rfl⟩
  · exact List.Pairwise.imp (fun hlt => ne_of_lt hlt) (ssMovesLoop_pairwise _ _)

/-- C6 witness: the characterization applied to the state with value 3. -/
theorem c6_witness :
    ((1 : Int) ∈ (SSGameCurrentState.init true 3).get_possible_moves ↔
      ∃ k : Nat, 1 ≤ k ∧ (1 : Int) = ((k * k : Nat) : Int) ∧
        (1 : Int) ≤ (SSGameCurrentState.init true 3).current_val) ∧
    List.Pairwise (· < ·) (SSGameCurrentState.init true 3).get_possible_moves :=
  ⟨(c6_possible_moves_squares (SSGameCurrentState.init true 3)
      (by norm_num [SSGameCurrentState.init])).1 1,
   (c6_possible_moves_squares (SSGameCurrentState.init true 3)
      (by norm_num [SSGameCurrentState.init])).2.1⟩

/-- C7: every legal subtraction move yields a non-negative, strictly
smaller value; for non-negative values the move list is empty exactly at
value 0; and every legal play sequence from a non-negative value has
length at most the value (hence is finite) and can only end move-less at
value 0. -/
theorem c7_termination :
    (∀ (s : SSGameCurrentState) (m : Int), m ∈ s.get_possible_moves →
      0 ≤ (s.make_move m).current_val ∧ (s.make_move m).current_val < s.current_val) ∧
    (∀ s : SSGameCurrentState, 0 ≤ s.current_val →
      (s.get_possible_moves = [] ↔ s.current_val = 0)) ∧
    (∀ (s : SSGameCurrentState) (ms : List Int) (t : SSGameCurrentState), SSPlays s ms t →
      0 ≤ s.current_val →
        ms.length ≤ s.current_val.toNat ∧
          (t.get_possible_moves = [] → t.current_val = 0)) := by
  refine ⟨ss_make_move_val, ?_, ?_⟩
  · intro s h0
    rw [SSGameCurrentState.get_possible_moves, ssMovesLoop_nil_iff]
    omega
  · intro s ms t hp h0
    exact ⟨ssPlays_length_le s ms t hp h0, ssPlays_terminal s ms t hp h0⟩

/-- C7 witness: the three parts applied to the state with value 1 and the
one-move play `[1]`. -/
theorem c7_witness :
    (0 ≤ ((SSGameCurrentState.init true 1).make_move 1).current_val ∧
      ((SSGameCurrentState.init true 1).make_move 1).current_val <
        (SSGameCurrentState.init true 1).current_val) ∧
    ((SSGameCurrentState.init true 1).get_possible_moves = [] ↔
      (SSGameCurrentState.init true 1).current_val = 0) ∧
    ([(1 : Int)].length ≤ (SSGameCurrentState.init true 1).current_val.toNat ∧
      (((SSGameCurrentState.init true 1).make_move 1).get_possible_moves = [] →
        ((SSGameCurrentState.init true 1).make_move 1).current_val = 0)) := by
  have hmem : (1 : Int) ∈ (SSGameCurrentState.init true 1).get_possible_moves := by
    show (1 : Int) ∈ ssMovesLoop 1 1
    rw [ssMovesLoop_one]
    exact List.mem_singleton_self 1
  exact ⟨c7_termination.1 _ 1 hmem,
    c7_termination.2.1 _ (by norm_num [SSGameCurrentState.init]),
    c7_termination.2.2 _ [1] _ (SSPlays.cons _ 1 [] _ hmem (SSPlays.nil _))
      (by norm_num [SSGameCurrentState.init])⟩

/-- C8: for both games, `is_winner(player)` is true exactly when the
active side's possible-move list (the cached one for the subtraction game,
the recomputed one for chopsticks) is empty and `player` is not the
active (stuck) side; whenever that list is non-empty the answer is false
for every queried player. -/
theorem c8_is_winner_iff (g : SubtractSquareGame) (g2 : ChopsticksGame) (p : String) :
    (g.is_winner p = true ↔ g.current_state.possible_moves_list = [] ∧
      p ≠ (if g.current_state.is_p1_turn then "p1" else "p2")) ∧
    (g2.is_winner p = true ↔ g2.current_state.get_possible_moves = [] ∧
      p ≠ (if g2.current_state.is_p1_turn then "p1" else "p2")) ∧
    (g.current_state.possible_moves_list ≠ [] → g.is_winner p = false) ∧
    (g2.current_state.get_possible_moves ≠ [] → g2.is_winner p = false) := by
  refine ⟨?_, ?_, ?_, ?_⟩ <;>
    [skip; skip;
      (intro h; by_cases h2 : p = (if g.current_state.is_p1_turn then "p1" else "p2") <;>
        simp [SubtractSquareGame.is_winner, h, h2]);
      (intro h; by_cases h2 : p = (if g2.current_state.is_p1_turn then "p1" else "p2") <;>
        simp [ChopsticksGame.is_winner, h, h2])] <;>
    [by_cases h1 : g.current_state.possible_moves_list = [];
      by_cases h1 : g2.current_state.get_possible_moves = []] <;>
    by_cases h2 : p = (if (SubtractSquareGame.mk g.is_p1_turn
      g.current_state).current_state.is_p1_turn then "p1" else "p2") <;>
    simp_all [SubtractSquareGame.is_winner, ChopsticksGame.is_winner]

/-- C8 witness: both games evaluated at concrete non-terminal states where
`is_winner` must answer false. -/
theorem c8_witness :
    (⟨true, ⟨true, 5, [1, 4]⟩⟩ : SubtractSquareGame).is_winner "p2" = false ∧
    (⟨true, CSGameCurrentState.init true⟩ : ChopsticksGame).is_winner "p2" = false :=
  ⟨(c8_is_winner_iff ⟨true, ⟨true, 5, [1, 4]⟩⟩ ⟨true, CSGameCurrentState.init true⟩
      "p2").2.2.1 (by decide),
   (c8_is_winner_iff ⟨true, ⟨true, 5, [1, 4]⟩⟩ ⟨true, CSGameCurrentState.init true⟩
      "p2").2.2.2 (by decide)⟩

/-- C9 (amended): `str_to_move` is the builtin `int(move)`: it succeeds
with value `n` exactly when the input, after Unicode-whitespace stripping,
is an optional sign followed by a run of Unicode decimal digits with
single `_` group separators between digits, denoting `n`; for every string
outside this syntax it fails and the parse error is propagated to the
caller rather than swallowed or defaulted; being a pure function, it
changes no state. (The original claim's plain base-10 reading fails:
`int()` also accepts grouped digit runs such as `"1_0"` — see the
counterexample.) -/
theorem c9_str_to_move_pyint (g : SubtractSquareGame) (s : String) (n : Int) :
    (g.str_to_move s = Except.ok n ↔ RepresentsPyInt s n) ∧
    ((¬∃ k : Int, RepresentsPyInt s k) → ∃ e, g.str_to_move s = Except.error e) := by
  constructor
  · rw [← pyInt_some_iff]
    unfold SubtractSquareGame.str_to_move
    cases hp : pyInt s <;> simp [hp]
  · intro hno
    cases hp : pyInt s with
    | none => exact ⟨_, by unfold SubtractSquareGame.str_to_move; rw [hp]⟩
    | some v => exact absurd ⟨v, (pyInt_some_iff s v).mp hp⟩ hno

/-- C9 counterexample: the code parses `"1_0"` successfully to 10 although
the string is not a plain optionally signed base-10 digit run, so the
original claim's "for a non-numeric string it fails with a parse error"
(numeric read as plain base-10) is false of the code at this input. -/
theorem c9_counterexample_underscore :
    (⟨true, ⟨true, 0, []⟩⟩ : SubtractSquareGame).str_to_move "1_0" = Except.ok 10 ∧
    ¬∃ k : Int, RepresentsInt "1_0" k := by
  constructor
  · unfold SubtractSquareGame.str_to_move
    rw [show pyInt "1_0" = some 10 from by decide]
  · rintro ⟨k, hk⟩
    have hs : pyStrip "1_0".data = ['1', '_', '0'] := by decide
    rcases hk with ⟨ds, hds, hne, hall, -⟩ | ⟨ds, hds, hne, hall, -⟩
    · rcases hds with hds | hds
      · rw [hs] at hds
        have hmem : '_' ∈ ds := by rw [← hds]; simp
        have := hall _ hmem
        exact absurd this (by decide)
      · rw [hs] at hds
        injection hds with h1 h2
        exact absurd h1 (by decide)
    · rw [hs] at hds
      injection hds with h1 h2
      exact absurd h1 (by decide)

/-- C9 witness: the non-numeric string `"derp"` produces a propagated
parse error. -/
theorem c9_witness :
    ∃ e, (⟨true, ⟨true, 0, []⟩⟩ : SubtractSquareGame).str_to_move "derp" =
      Except.error e := by
  refine (c9_str_to_move_pyint _ "derp" 0).2 ?_
  rintro ⟨k, hk⟩
  have hs : pyStrip "derp".data = ['d', 'e', 'r', 'p'] := by decide
  rcases hk with ⟨ds, hds, hg, -⟩ | ⟨ds, hds, hg, -⟩
  · rcases hds with hds | hds
    · rw [hs] at hds
      obtain ⟨-, -, hall, -, -⟩ := hg
      have hmem : 'd' ∈ ds := by rw [← hds]; simp
      rcases hall _ hmem with h | h
      · exact absurd h (by decide)
      · exact absurd h (by decide)
    · rw [hs] at hds
      injection hds with h1 h2
      exact absurd h1 (by decide)
  · rw [hs] at hds
    injection hds with h1 h2
    exact absurd h1 (by decide)

/-- C10: the chopsticks `make_move` dispatch tests only `ll`, `lr`, `rl`
and lets every other string fall into the final `else`, so any
unrecognised move string acts exactly like `rr`. -/
theorem c10_unrecognized_move_rr (s : CSGameCurrentState) (m : String)
    (h1 : m ≠ "ll") (h2 : m ≠ "lr") (h3 : m ≠ "rl") :
    s.make_move m = s.make_move "rr" := by
  simp [CSGameCurrentState.make_move, h1, h2, h3]

/-- C10 witness: the string `"derp"` moves exactly like `rr` from the
initial state. -/
theorem c10_witness :
    (CSGameCurrentState.init true).make_move "derp" =
      (CSGameCurrentState.init true).make_move "rr" :=
  c10_unrecognized_move_rr (CSGameCurrentState.init true) "derp"
    (by decide) (by decide) (by decide)
